import Mathlib

/-!
Verification of the streaming-pipeline core of the pydanticAI financial
agent repository: the sliding-window rate limiter (`src/utils/rate_limiter.py`),
the thinking-token filter and streaming bridge (`src/agent/streaming.py`),
and the ticker validation of the finance tool (`src/tools/finance_tool.py`).

Python text is modelled as `List Char`; clock readings (`time.time()`) and
the wait hints derived from them are modelled as exact rationals.  Fallible
operations return the poststate of the mutated object together with an
`Except`-style outcome, mirroring the in-place mutation of the Python
objects.
-/

/-! ## Sliding-window rate limiter (src/utils/rate_limiter.py) -/

/-- The error raised by `check_and_record`; it carries the computed wait
hint and the formatted message. -/
structure RateLimitExceededError where
  waitSeconds : ℚ
  message : String
deriving DecidableEq, Repr

/-- The mutable state of one `RateLimiter` object: the configuration plus
the deque of admitted-request timestamps (`self._timestamps`), oldest first. -/
structure RateLimiter where
  maxRequests : ℕ
  windowSeconds : ℤ
  timestamps : List ℚ
deriving DecidableEq, Repr

/-- `RateLimiter.__init__`: rejects `max_requests < 1` and
`window_seconds < 1` with a `ValueError`, otherwise starts with an empty
timestamp deque. -/
def rateLimiterInit (maxRequests : ℕ) (windowSeconds : ℤ) :
    Except String RateLimiter :=
  if maxRequests < 1 then .error "max_requests must be at least 1"
  else if windowSeconds < 1 then .error "window_seconds must be at least 1"
  else .ok ⟨maxRequests, windowSeconds, []⟩

/-- `RateLimiter._remove_expired_timestamps`: pop from the left while the
oldest timestamp is `<= current_time - window_seconds`. -/
def removeExpiredTimestamps (L : RateLimiter) (currentTime : ℚ) : RateLimiter :=
  { L with timestamps := L.timestamps.dropWhile (· ≤ currentTime - (L.windowSeconds : ℚ)) }

/-- One-decimal rendering of the wait hint, standing in for Python's
`f"{wait_time:.1f}"` (binary-float rounding is approximated by rational
rounding; no claim depends on the rendered digits). -/
def formatOneDecimal (q : ℚ) : String :=
  let tenths : ℤ := round (q * 10)
  let sign := if tenths < 0 then "-" else ""
  sign ++ toString (tenths.natAbs / 10) ++ "." ++ toString (tenths.natAbs % 10)

/-- The message of `RateLimitExceededError` as formatted in
`check_and_record`. -/
def rateLimitMessage (maxRequests : ℕ) (windowSeconds : ℤ) (waitTime : ℚ) : String :=
  "Rate limit exceeded. Maximum " ++ toString maxRequests ++ " requests per "
    ++ toString windowSeconds ++ " seconds. Please wait "
    ++ formatOneDecimal waitTime ++ " seconds before retrying."

/-- `RateLimiter.check_and_record` at clock reading `now`: evict expired
timestamps, then either fail (leaving the evicted deque as the poststate,
appending nothing) or append `now`.  The returned pair is
(poststate of the object, outcome). -/
def checkAndRecord (L : RateLimiter) (now : ℚ) :
    RateLimiter × Except RateLimitExceededError Unit :=
  let L1 := removeExpiredTimestamps L now
  if L1.timestamps.length ≥ L.maxRequests then
    let oldest := L1.timestamps.headI
    let wait := max 0 (oldest + (L.windowSeconds : ℚ) - now)
    (L1, .error ⟨wait, rateLimitMessage L.maxRequests L.windowSeconds wait⟩)
  else
    ({ L1 with timestamps := L1.timestamps ++ [now] }, .ok ())

/-- `RateLimiter.get_remaining_requests` at clock reading `now`: evict,
then report `max(0, max_requests - len(timestamps))` without recording
anything. -/
def getRemainingRequests (L : RateLimiter) (now : ℚ) : RateLimiter × ℤ :=
  let L1 := removeExpiredTimestamps L now
  (L1, max 0 ((L.maxRequests : ℤ) - L1.timestamps.length))

/-- `RateLimiter.reset_time`: clear all recorded timestamps. -/
def resetTime (L : RateLimiter) : RateLimiter :=
  { L with timestamps := [] }

/-- Whether an `Except` outcome is a success. -/
def exceptOk {ε α : Type} : Except ε α → Bool
  | .ok _ => true
  | .error _ => false

/-- Run `check_and_record` once per clock reading in `times`, in order,
threading the limiter state and collecting the success flag of each call. -/
def runCalls (L : RateLimiter) : List ℚ → RateLimiter × List Bool
  | [] => (L, [])
  | t :: ts =>
    let r := checkAndRecord L t
    let rest := runCalls r.1 ts
    (rest.1, exceptOk r.2 :: rest.2)

/-! ## Text model

Python `str` values are modelled as `List Char`.  The regular expressions
of `streaming.py` all use literal alternatives (with optional parts
expanded into the finite list of alternative literals) around non-greedy
gaps, so they are embedded as explicit scanners over `List Char`. -/

/-- Python text. -/
abbrev Txt := List Char

/-- The character list of a string literal. -/
def txt (s : String) : Txt := s.data

/-- Character comparison, case-insensitively when `ci` is set (the
`re.IGNORECASE` / inline `(?i)` flag). -/
def charEq (ci : Bool) (a b : Char) : Bool :=
  if ci then a.toLower == b.toLower else a == b

/-- Does the literal `pat` match at the head of `s` (under `ci`)? -/
def matchesAt (ci : Bool) : Txt → Txt → Bool
  | [], _ => true
  | _ :: _, [] => false
  | p :: ps, c :: cs => charEq ci p c && matchesAt ci ps cs

/-- Does the literal `pat` occur anywhere in `s` (under `ci`)? -/
def occursIn (ci : Bool) (pat : Txt) : Txt → Bool
  | [] => matchesAt ci pat []
  | c :: cs => matchesAt ci pat (c :: cs) || occursIn ci pat cs

/-- Scan forward for the first position where one of the `closes`
literals matches, and return the remainder of the text after the matched
literal.  This is the non-greedy gap `.*?` followed by the close
alternatives of the thinking-block patterns. -/
def findCloseTail (ci : Bool) (closes : List Txt) : Txt → Option Txt
  | [] =>
    match closes.find? (fun p => matchesAt ci p []) with
    | some p => some (List.drop p.length [])
    | none => none
  | c :: cs =>
    match closes.find? (fun p => matchesAt ci p (c :: cs)) with
    | some p => some (List.drop p.length (c :: cs))
    | none => findCloseTail ci closes cs

/-- Fuel-indexed worker for one `re.sub(open .*? close, '', text)` pass:
scan left to right; at an occurrence of `opn` look for the nearest
following close alternative; if found, delete the whole span and resume
after it (matches are non-overlapping and the output is not rescanned);
if no close follows, the pattern cannot match there or anywhere later,
so the rest is kept verbatim. -/
def removeDelimF (ci : Bool) (opn : Txt) (closes : List Txt) : ℕ → Txt → Txt
  | 0, s => s
  | _ + 1, [] => []
  | fuel + 1, c :: cs =>
    if matchesAt ci opn (c :: cs) then
      match findCloseTail ci closes (List.drop opn.length (c :: cs)) with
      | some rem => removeDelimF ci opn closes fuel rem
      | none => c :: cs
    else
      c :: removeDelimF ci opn closes fuel cs

/-- One substitution pass deleting every `opn …lazy… close` span. -/
def removeDelim (ci : Bool) (opn : Txt) (closes : List Txt) (s : Txt) : Txt :=
  removeDelimF ci opn closes s.length s

/-- Python whitespace for `str.strip()` (ASCII fragment). -/
def isPySpace (c : Char) : Bool :=
  c == ' ' || c == '\t' || c == '\n' || c == '\x0d' || c == '\x0b' || c == '\x0c'

/-- `str.strip()`: drop leading and trailing whitespace. -/
def pyStrip (s : Txt) : Txt :=
  ((s.dropWhile isPySpace).reverse.dropWhile isPySpace).reverse

/-- The keyword alternatives of the `Think: … Answer:` pattern, in the
regex's order; all matched case-insensitively. -/
def keywordLits : List Txt := [txt "think:", txt "reasoning:", txt "internal thought:"]

/-- The lookahead alternatives `(?=(?:answer|final answer|response):)`. -/
def answerLits : List Txt := [txt "answer:", txt "final answer:", txt "response:"]

/-- Scan for the first position where a keyword alternative followed by
`:` matches, returning the remainder after the matched literal. -/
def findKeywordTail : Txt → Option Txt
  | [] => none
  | c :: cs =>
    match keywordLits.find? (fun p => matchesAt true p (c :: cs)) with
    | some p => some (List.drop p.length (c :: cs))
    | none => findKeywordTail cs

/-- Scan for the first position where an answer-marker lookahead matches,
returning the suffix starting at that position (the lookahead consumes
nothing). -/
def findAnswerSuffix : Txt → Option Txt
  | [] => none
  | c :: cs =>
    if (answerLits.any (fun p => matchesAt true p (c :: cs))) then some (c :: cs)
    else findAnswerSuffix cs

/-- The pass `re.sub(r'(?i)^.*?(?:think|reasoning|internal thought):.*?`
`(?=(?:answer|final answer|response):)', '', text, flags=re.DOTALL)`:
anchored at the start, it deletes everything up to the first
answer-marker position that follows the first keyword occurrence; if
either scan fails the text is unchanged.  No lazy-quantifier
backtracking case is lost: the keyword alternatives start with distinct
letters, so at most one matches at a position, and if no answer marker
follows the first keyword occurrence then none follows any later one
(the search space of a later keyword is a suffix of this one), so the
whole pattern fails to match.  Since the pattern is anchored and the
match is nonempty, `re.sub` performs at most this one substitution. -/
def thinkAnswerSub (s : Txt) : Txt :=
  match findKeywordTail s with
  | none => s
  | some rest =>
    match findAnswerSuffix rest with
    | none => s
    | some suffix => suffix

/-- `filter_thinking_tokens` (src/agent/streaming.py, lines 36-72): the
four delimiter-deletion passes, the `Think:`/`Answer:` pass, then
`strip()`.  The close alternatives expand the optional regex parts
(`/?`, `\|?`); at any given position at most one alternative can match,
so the listed order is immaterial. -/
def filterThinkingTokensL (s : Txt) : Txt :=
  let t1 := removeDelim true (txt "<think>") [txt "</think>"] s
  let t2 := removeDelim true (txt "<thinking>") [txt "</thinking>"] t1
  let t3 := removeDelim false (txt "<|thinking|>")
    [txt "</|end_thinking|>", txt "<|end_thinking|>"] t2
  let t4 := removeDelim false (txt "<|thinking|>")
    [txt "</|end_thinking|>", txt "</end_thinking|>", txt "<|end_thinking|>",
      txt "<end_thinking|>"] t3
  let t5 := thinkAnswerSub t4
  pyStrip t5

/-- `filter_thinking_tokens` on Python strings. -/
def filter_thinking_tokens (s : String) : String :=
  ⟨filterThinkingTokensL s.data⟩

/-! ## Streaming bridge (src/agent/streaming.py, lines 75-263)

`stream_agent_response` runs the nested async generator `_async_stream`
on a worker thread; chunks cross to the caller through a queue ending in
a `None` sentinel; an exception escaping the worker body would be stowed
in `exception_holder` and re-raised after the queue drains.  The
producer (`result.stream_text(delta=True)`) is modelled as the list of
chunks it yields followed by an optional error that interrupts it. -/

/-- An error raised by the producer, as classified by the two `except`
arms of `_async_stream`.  `RateLimitExceededError` (both the variant in
`rate_limiter.py` and the one in `exceptions.py`) is not a subclass of
`ToolExecutionError`, so it is distinguished from `toolExecution` and
handled by the catch-all arm. -/
inductive ProducerError
  | toolExecution (msg : String)
  | rateLimit (msg : String)
  | unclassified (msg : String)
deriving DecidableEq, Repr

/-- The single error chunk yielded by the `except` arms of
`_async_stream`: `except ToolExecutionError` formats
`"\n\nError: " + str(e)`; everything else (including rate-limit errors)
falls to `except Exception`, which formats
`"\n\nStreaming error: " + str(e)`. -/
def errorChunk : ProducerError → Txt
  | .toolExecution m => txt ("\n\nError: " ++ m)
  | .rateLimit m => txt ("\n\nStreaming error: " ++ m)
  | .unclassified m => txt ("\n\nStreaming error: " ++ m)

/-- The open-marker search of the online loop (line 163):
`re.search(r'<think(?:ing)?>|<[|]thinking[|]>', recent, re.IGNORECASE)`. -/
def openMarkerFound (s : Txt) : Bool :=
  occursIn true (txt "<think>") s || occursIn true (txt "<thinking>") s
    || occursIn true (txt "<|thinking|>") s

/-- The close-marker search of the online loop (line 171):
`re.search(r'</think(?:ing)?>|</?[|]?end_thinking[|]>', recent, re.IGNORECASE)`. -/
def closeMarkerFound (s : Txt) : Bool :=
  occursIn true (txt "</think>") s || occursIn true (txt "</thinking>") s
    || occursIn true (txt "</|end_thinking|>") s
    || occursIn true (txt "</end_thinking|>") s
    || occursIn true (txt "<|end_thinking|>") s
    || occursIn true (txt "<end_thinking|>") s

/-- Python `full_response[-10:]`. -/
def lastTen (l : List Txt) : List Txt := l.drop (l.length - 10)

/-- The loop state of `_async_stream`: `full_response`,
`in_thinking_block`, `thinking_buffer`, and the chunks yielded so far. -/
structure StreamState where
  full : List Txt
  inThinking : Bool
  buffer : List Txt
  yielded : List Txt
deriving DecidableEq, Repr

/-- One iteration of the `async for text_chunk` loop (lines 157-178):
append the chunk to `full_response`; if the open-marker search hits the
last-ten-chunk window, buffer the chunk and continue; else if inside a
thinking block, buffer it and leave the block when the close-marker
search hits; else yield the chunk. -/
def streamStep (st : StreamState) (chunk : Txt) : StreamState :=
  let full1 := st.full ++ [chunk]
  let recent := (lastTen full1).flatten
  if openMarkerFound recent then
    { full := full1, inThinking := true, buffer := st.buffer ++ [chunk],
      yielded := st.yielded }
  else if st.inThinking then
    if closeMarkerFound recent then
      { full := full1, inThinking := false, buffer := [], yielded := st.yielded }
    else
      { full := full1, inThinking := true, buffer := st.buffer ++ [chunk],
        yielded := st.yielded }
  else
    { full := full1, inThinking := false, buffer := st.buffer,
      yielded := st.yielded ++ [chunk] }

/-- Run the online loop over every producer chunk. -/
def streamLoop (chunks : List Txt) : StreamState :=
  chunks.foldl streamStep ⟨[], false, [], []⟩

/-- Total character count of a chunk list. -/
def totalLen (l : List Txt) : ℤ :=
  (l.map List.length).sum

/-- The chunks yielded by `_async_stream` when the producer completes
without an error: the online loop's yields, then (lines 182-191) the
corrective chunk `filtered_text[streamed_length:]`, emitted only when
the authoritative `filter_thinking_tokens(full_text)` is strictly longer
than `streamed_length = len(full) - len(thinking_buffer)` and the
remainder is not pure whitespace. -/
def streamSuccessYields (chunks : List Txt) : List Txt :=
  let st := streamLoop chunks
  let finalText := st.full.flatten
  let filtered := filterThinkingTokensL finalText
  let streamedLength : ℤ := totalLen st.full - totalLen st.buffer
  if (filtered.length : ℤ) > streamedLength then
    let remaining := filtered.drop streamedLength.toNat
    if pyStrip remaining ≠ [] then st.yielded ++ [remaining] else st.yielded
  else
    st.yielded

/-- The chunks yielded by `_async_stream` for a producer run: on an
error, the loop stops where the producer stopped, the reconciliation
pass is skipped, and the matching `except` arm yields exactly one error
chunk. -/
def asyncStreamYields (chunks : List Txt) (err : Option ProducerError) : List Txt :=
  match err with
  | none => streamSuccessYields chunks
  | some e => (streamLoop chunks).yielded ++ [errorChunk e]

/-- What the blocking caller of `stream_agent_response` observes. -/
structure BridgeResult where
  received : List Txt
  sentinelSeen : Bool
  raised : Option ProducerError
deriving DecidableEq, Repr

/-- `stream_agent_response` (lines 223-263): the worker thread drives
`_async_stream` and puts every chunk, then the `None` sentinel, on the
queue; the caller drains until the sentinel and finally re-raises
anything in `exception_holder`.  Both `except` arms are inside
`_async_stream`, so a producer error is consumed there and converted to
a chunk; the generator completes normally, `exception_holder` stays
empty, and nothing is re-raised. -/
def streamAgentResponse (chunks : List Txt) (err : Option ProducerError) :
    BridgeResult :=
  { received := asyncStreamYields chunks err
    sentinelSeen := true
    raised := none }

/-! ## Finance tool (src/tools/finance_tool.py) -/

/-- The argument passed for `ticker`: a Python string, or a value of any
other type (only its type name matters to the validation branch). -/
inductive TickerArg
  | pyStr (s : String)
  | nonString (typeName : String)
deriving DecidableEq, Repr

/-- The structured dictionary returned by `get_stock_price`. -/
structure StockData where
  ticker : String
  currentPrice : ℚ
  previousClose : ℚ
  dayHigh : ℚ
  dayLow : ℚ
  volume : ℤ
  currency : String
deriving DecidableEq, Repr

/-- The observable outcome of one `get_stock_price` call. -/
inductive StockOutcome
  | data (d : StockData)
  | toolError (msg : String)
  | rateLimited (e : RateLimitExceededError)
deriving DecidableEq, Repr

/-- `ticker.strip().upper()` (Python `str.upper` on the ASCII fragment). -/
def stripUpper (s : String) : String :=
  ⟨(pyStrip s.data).map Char.toUpper⟩

/-- `get_stock_price` (lines 58-128).  The region after the limiter check
(the YFinance lookup and its error wrapping, lines 77-128) depends on the
external collaborator and is abstracted as `fetch`, which returns either
the structured data or the message of the `ToolExecutionError` that
region raises.  Validation happens before `check_and_record`, which
happens before `fetch`; the returned pair is (limiter poststate,
outcome). -/
def getStockPrice (fetch : String → Except String StockData)
    (L : RateLimiter) (now : ℚ) (arg : TickerArg) : RateLimiter × StockOutcome :=
  match arg with
  | .nonString typeName =>
    (L, .toolError ("Invalid ticker format: ticker must be a non-empty string, got "
      ++ typeName))
  | .pyStr s =>
    if s = "" then
      (L, .toolError "Invalid ticker format: ticker must be a non-empty string, got str")
    else
      let t := stripUpper s
      if t = "" then
        (L, .toolError "Invalid ticker format: ticker cannot be empty or whitespace")
      else if t.length > 10 then
        (L, .toolError ("Invalid ticker format: ticker '" ++ t
          ++ "' exceeds maximum length of 10 characters"))
      else
        match checkAndRecord L now with
        | (L1, .error e) => (L1, .rateLimited e)
        | (L1, .ok _) =>
          match fetch t with
          | .error m => (L1, .toolError m)
          | .ok d => (L1, .data d)

/-- The invalid-ticker condition of claim C10: not a string, empty, empty
or whitespace-only after trimming, or longer than 10 characters after
trimming and uppercasing. -/
def invalidTickerArg : TickerArg → Prop
  | .nonString _ => True
  | .pyStr s => s = "" ∨ stripUpper s = "" ∨ (stripUpper s).length > 10

/-! ## Helper lemmas: eviction -/

theorem dropWhile_eq_self_of_forall {α : Type} (p : α → Bool) (l : List α)
    (h : ∀ x ∈ l, p x = false) : l.dropWhile p = l := by
  cases l with
  | nil => rfl
  | cons a t => simp [List.dropWhile_cons, h a (by simp)]

theorem mem_dropWhile_le_gt (c : ℚ) (l : List ℚ) (hs : l.Sorted (· ≤ ·)) :
    ∀ x ∈ l.dropWhile (· ≤ c), c < x := by
  induction l with
  | nil => simp [List.dropWhile]
  | cons a t ih =>
    rw [List.sorted_cons] at hs
    by_cases hac : a ≤ c
    · simpa [List.dropWhile_cons, hac] using ih hs.2
    · simp only [List.dropWhile_cons, decide_eq_true_eq, hac, if_false]
      intro x hx
      rcases List.mem_cons.mp hx with rfl | hxt
      · exact lt_of_not_le hac
      · exact lt_of_lt_of_le (lt_of_not_le hac) (hs.1 x hxt)

theorem evict_eq_self (L : RateLimiter) (now : ℚ)
    (h : ∀ x ∈ L.timestamps, now - (L.windowSeconds : ℚ) < x) :
    removeExpiredTimestamps L now = L := by
  have : L.timestamps.dropWhile (· ≤ now - (L.windowSeconds : ℚ)) = L.timestamps := by
    refine dropWhile_eq_self_of_forall _ _ ?_
    intro x hx
    simpa [decide_eq_false_iff_not] using not_le_of_lt (h x hx)
  simp [removeExpiredTimestamps, this]

/-! ## Claim C4 -/

/-- Claim C4: whenever `check_and_record`, after evicting expired
timestamps, finds the remaining count at or above `max_requests`, it
fails with a rate-limit error whose wait hint is
`max(0, oldest_remaining + window_seconds - now)`, and the rejected
call appends nothing: the poststate ledger is exactly the evicted
ledger. -/
theorem claim_C4 (L : RateLimiter) (now : ℚ)
    (hfull : L.maxRequests ≤ (removeExpiredTimestamps L now).timestamps.length) :
    ∃ e : RateLimitExceededError,
      checkAndRecord L now = (removeExpiredTimestamps L now, .error e) ∧
      e.waitSeconds =
        max 0 ((removeExpiredTimestamps L now).timestamps.headI + (L.windowSeconds : ℚ) - now) := by
  refine ⟨⟨max 0 ((removeExpiredTimestamps L now).timestamps.headI + (L.windowSeconds : ℚ) - now),
    rateLimitMessage L.maxRequests L.windowSeconds
      (max 0 ((removeExpiredTimestamps L now).timestamps.headI + (L.windowSeconds : ℚ) - now))⟩,
    ?_, rfl⟩
  simp only [checkAndRecord, ge_iff_le, hfull, if_true]

/-- Witness for C4 at a concrete rejected call. -/
theorem claim_C4_witness :
    ∃ e : RateLimitExceededError,
      checkAndRecord ⟨1, 60, [10]⟩ 20 = (removeExpiredTimestamps ⟨1, 60, [10]⟩ 20, .error e) ∧
      e.waitSeconds =
        max 0 ((removeExpiredTimestamps ⟨1, 60, [10]⟩ 20).timestamps.headI + ((60 : ℤ) : ℚ) - 20) := by
  have he : removeExpiredTimestamps ⟨1, 60, [10]⟩ 20 = ⟨1, 60, [10]⟩ := by
    refine evict_eq_self _ _ ?_
    intro x hx
    simp only [List.mem_singleton] at hx
    subst hx
    norm_num
  exact claim_C4 ⟨1, 60, [10]⟩ 20 (by rw [he]; decide)

/-! ## Claim C7 -/

/-- Claim C7: `get_remaining_requests` evicts without recording anything
and reports `max(0, max_requests - count)`; the report is never
negative, and (whenever the in-window count is within the configured
maximum, as every reachable state satisfies) the report plus the
in-window count equals `max_requests`. -/
theorem claim_C7 (L : RateLimiter) (now : ℚ)
    (hcount : (removeExpiredTimestamps L now).timestamps.length ≤ L.maxRequests) :
    (getRemainingRequests L now).1 = removeExpiredTimestamps L now ∧
    (getRemainingRequests L now).2 =
      max 0 ((L.maxRequests : ℤ) - (removeExpiredTimestamps L now).timestamps.length) ∧
    0 ≤ (getRemainingRequests L now).2 ∧
    (getRemainingRequests L now).2 +
      (removeExpiredTimestamps L now).timestamps.length = L.maxRequests := by
  refine ⟨rfl, rfl, le_max_left 0 _, ?_⟩
  have h : ((removeExpiredTimestamps L now).timestamps.length : ℤ) ≤ L.maxRequests := by
    exact_mod_cast hcount
  show max 0 ((L.maxRequests : ℤ) - (removeExpiredTimestamps L now).timestamps.length) + _ = _
  omega

/-- Witness for C7 at a concrete observation point. -/
theorem claim_C7_witness :
    (getRemainingRequests ⟨10, 60, [5]⟩ 10).1 = removeExpiredTimestamps ⟨10, 60, [5]⟩ 10 ∧
    (getRemainingRequests ⟨10, 60, [5]⟩ 10).2 =
      max 0 ((10 : ℤ) - (removeExpiredTimestamps ⟨10, 60, [5]⟩ 10).timestamps.length) ∧
    0 ≤ (getRemainingRequests ⟨10, 60, [5]⟩ 10).2 ∧
    (getRemainingRequests ⟨10, 60, [5]⟩ 10).2 +
      (removeExpiredTimestamps ⟨10, 60, [5]⟩ 10).timestamps.length = 10 := by
  have he : removeExpiredTimestamps ⟨10, 60, [5]⟩ 10 = ⟨10, 60, [5]⟩ := by
    refine evict_eq_self _ _ ?_
    intro x hx
    simp only [List.mem_singleton] at hx
    subst hx
    norm_num
  exact claim_C7 ⟨10, 60, [5]⟩ 10 (by rw [he]; decide)

/-! ## Claim C6 -/

theorem evict_sorted (L : RateLimiter) (now : ℚ)
    (hs : L.timestamps.Sorted (· ≤ ·)) :
    (removeExpiredTimestamps L now).timestamps.Sorted (· ≤ ·) :=
  List.Pairwise.sublist (List.dropWhile_sublist _) hs

theorem evict_subset (L : RateLimiter) (now : ℚ) :
    ∀ x ∈ (removeExpiredTimestamps L now).timestamps, x ∈ L.timestamps := by
  intro x hx
  exact (List.dropWhile_sublist _).subset hx

/-- Claim C6: under the reachable-state assumptions (sorted ledger, no
timestamp in the future, positive window), eviction removes only a front
segment of expired entries; after `check_and_record` and
`get_remaining_requests` the ledger is still sorted and every entry is
younger than `now - window_seconds`; a successful admit never leaves
more than `max_requests` entries; and `reset_time` empties the ledger. -/
theorem claim_C6 (L : RateLimiter) (now : ℚ)
    (hsort : L.timestamps.Sorted (· ≤ ·))
    (hpast : ∀ x ∈ L.timestamps, x ≤ now)
    (hW : 0 < L.windowSeconds) :
    (∃ removed, L.timestamps = removed ++ (removeExpiredTimestamps L now).timestamps ∧
      ∀ x ∈ removed, x ≤ now - (L.windowSeconds : ℚ)) ∧
    (checkAndRecord L now).1.timestamps.Sorted (· ≤ ·) ∧
    (∀ x ∈ (checkAndRecord L now).1.timestamps, now - (L.windowSeconds : ℚ) < x) ∧
    ((checkAndRecord L now).2 = .ok () →
      (checkAndRecord L now).1.timestamps.length ≤ L.maxRequests) ∧
    (getRemainingRequests L now).1.timestamps.Sorted (· ≤ ·) ∧
    (∀ x ∈ (getRemainingRequests L now).1.timestamps, now - (L.windowSeconds : ℚ) < x) ∧
    (resetTime L).timestamps = [] := by
  have hWq : (0 : ℚ) < (L.windowSeconds : ℚ) := by exact_mod_cast hW
  have hgt : ∀ x ∈ (removeExpiredTimestamps L now).timestamps,
      now - (L.windowSeconds : ℚ) < x :=
    mem_dropWhile_le_gt _ _ hsort
  have hes : (removeExpiredTimestamps L now).timestamps.Sorted (· ≤ ·) :=
    evict_sorted L now hsort
  refine ⟨?_, ?_, ?_, ?_, hes, hgt, rfl⟩
  · refine ⟨L.timestamps.takeWhile (· ≤ now - (L.windowSeconds : ℚ)), ?_, ?_⟩
    · exact (List.takeWhile_append_dropWhile _ _).symm
    · intro x hx
      have := List.mem_takeWhile_imp hx
      simpa using this
  · by_cases hc : (removeExpiredTimestamps L now).timestamps.length ≥ L.maxRequests
    · simpa [checkAndRecord, hc] using hes
    · simp only [checkAndRecord, hc, if_false]
      refine List.pairwise_append.mpr ⟨hes, by simp, ?_⟩
      intro x hx y hy
      simp only [List.mem_singleton] at hy
      rw [hy]
      exact hpast x (evict_subset L now x hx)
  · by_cases hc : (removeExpiredTimestamps L now).timestamps.length ≥ L.maxRequests
    · simpa [checkAndRecord, hc] using hgt
    · simp only [checkAndRecord, hc, if_false]
      intro x hx
      rcases List.mem_append.mp hx with hxl | hxr
      · exact hgt x hxl
      · simp only [List.mem_singleton] at hxr
        subst hxr
        linarith
  · by_cases hc : (removeExpiredTimestamps L now).timestamps.length ≥ L.maxRequests
    · simp [checkAndRecord, hc]
    · simp only [checkAndRecord, hc, if_false]
      intro _
      simp only [List.length_append, List.length_singleton]
      omega

/-- Witness for C6 at a concrete state and clock reading. -/
theorem claim_C6_witness :
    (∃ removed, ([0, 30] : List ℚ) =
      removed ++ (removeExpiredTimestamps ⟨2, 60, [0, 30]⟩ 61).timestamps ∧
      ∀ x ∈ removed, x ≤ 61 - ((60 : ℤ) : ℚ)) ∧
    (checkAndRecord ⟨2, 60, [0, 30]⟩ 61).1.timestamps.Sorted (· ≤ ·) ∧
    (∀ x ∈ (checkAndRecord ⟨2, 60, [0, 30]⟩ 61).1.timestamps, 61 - ((60 : ℤ) : ℚ) < x) ∧
    (resetTime ⟨2, 60, [0, 30]⟩).timestamps = [] := by
  have h := claim_C6 ⟨2, 60, [0, 30]⟩ 61 (by decide)
    (by intro x hx; rcases List.mem_cons.mp hx with rfl | hx2; · decide
        · simp only [List.mem_singleton] at hx2; rw [hx2]; decide)
    (by decide)
  exact ⟨h.1, h.2.1, h.2.2.1, h.2.2.2.2.2.2⟩

/-! ## Claim C5 -/

theorem runCalls_all_ok (N : ℕ) (W : ℤ) (t0 : ℚ) :
    ∀ (ts pre : List ℚ), (∀ x ∈ pre, t0 ≤ x) →
      (∀ x ∈ ts, t0 ≤ x ∧ x < t0 + (W : ℚ)) →
      pre.length + ts.length ≤ N →
      runCalls ⟨N, W, pre⟩ ts = (⟨N, W, pre ++ ts⟩, List.replicate ts.length true) := by
  intro ts
  induction ts with
  | nil =>
    intro pre _ _ _
    simp [runCalls]
  | cons u us ih =>
    intro pre hpre hts hlen
    have hu := hts u (by simp)
    have hevict : removeExpiredTimestamps ⟨N, W, pre⟩ u = ⟨N, W, pre⟩ := by
      refine evict_eq_self _ _ ?_
      intro x hx
      have h1 := hpre x hx
      have h2 : u - (W : ℚ) < t0 := by
        have := hu.2
        linarith
      calc u - ((⟨N, W, pre⟩ : RateLimiter).windowSeconds : ℚ) < t0 := h2
        _ ≤ x := h1
    have hlt : ¬ (pre.length ≥ N) := by
      simp only [List.length_cons] at hlen
      omega
    have hstep : checkAndRecord ⟨N, W, pre⟩ u = (⟨N, W, pre ++ [u]⟩, .ok ()) := by
      simp only [checkAndRecord, hevict]
      rw [if_neg hlt]
    have hlen1 : pre.length + (us.length + 1) ≤ N := by simpa using hlen
    have hrest := ih (pre ++ [u])
      (by intro x hx
          rcases List.mem_append.mp hx with hxl | hxr
          · exact hpre x hxl
          · simp only [List.mem_singleton] at hxr; rw [hxr]; exact hu.1)
      (by intro x hx; exact hts x (by simp [hx]))
      (by simp only [List.length_append, List.length_singleton]; omega)
    simp only [runCalls, hstep, hrest, exceptOk, List.length_cons, List.replicate_succ]
    simp [List.append_assoc]

/-- Claim C5: from a fresh limiter `(N, W)`, `N` consecutive calls within
less than `W` seconds all succeed; an `(N+1)`-th call still inside the
window fails without changing the ledger and with a wait hint in
`[0, W]`; once at least `W` seconds have passed since the first call, a
new call succeeds again; and in the concrete `(10, 60)` scenario ten
rapid calls succeed while the eleventh fails with a message containing
"10 requests" and a wait hint in `[0, 60]`. -/
theorem claim_C5 (N : ℕ) (W : ℤ) (hW : 1 ≤ W)
    (ts : List ℚ) (t0 : ℚ) (hne : ts ≠ []) (hhead : ts.headI = t0)
    (hlen : ts.length = N)
    (hin : ∀ x ∈ ts, t0 ≤ x ∧ x < t0 + (W : ℚ)) :
    runCalls ⟨N, W, []⟩ ts = (⟨N, W, ts⟩, List.replicate N true) ∧
    (∀ u, t0 ≤ u → u < t0 + (W : ℚ) →
      ∃ e, checkAndRecord ⟨N, W, ts⟩ u = (⟨N, W, ts⟩, .error e) ∧
        0 ≤ e.waitSeconds ∧ e.waitSeconds ≤ (W : ℚ)) ∧
    (∀ v, t0 + (W : ℚ) ≤ v → exceptOk (checkAndRecord ⟨N, W, ts⟩ v).2 = true) ∧
    (runCalls ⟨10, 60, []⟩ (List.replicate 10 0) =
      (⟨10, 60, List.replicate 10 0⟩, List.replicate 10 true) ∧
     ∃ e, (checkAndRecord ⟨10, 60, List.replicate 10 0⟩ 0).2 = .error e ∧
       (∃ pre post, e.message = pre ++ "10 requests" ++ post) ∧
       0 ≤ e.waitSeconds ∧ e.waitSeconds ≤ 60) := by
  have hWq : (1 : ℚ) ≤ (W : ℚ) := by exact_mod_cast hW
  refine ⟨?_, ?_, ?_, ?_, ?_⟩
  · have := runCalls_all_ok N W t0 ts [] (by simp) hin (by simp [hlen])
    simpa [hlen] using this
  · intro u h1 h2
    have hevict : removeExpiredTimestamps ⟨N, W, ts⟩ u = ⟨N, W, ts⟩ := by
      refine evict_eq_self _ _ ?_
      intro x hx
      have hx1 := (hin x hx).1
      show u - (W : ℚ) < x
      linarith
    refine ⟨⟨max 0 (ts.headI + (W : ℚ) - u),
      rateLimitMessage N W (max 0 (ts.headI + (W : ℚ) - u))⟩, ?_, ?_, ?_⟩
    · simp only [checkAndRecord, hevict]
      rw [if_pos (by simp [hlen])]
    · exact le_max_left 0 _
    · rw [hhead]
      refine max_le (by linarith) (by linarith)
  · intro v hv
    obtain ⟨a, rest, rfl⟩ := List.exists_cons_of_ne_nil hne
    have ha : a = t0 := by simpa using hhead
    have hdrop : (a :: rest).dropWhile (· ≤ v - (W : ℚ)) =
        rest.dropWhile (· ≤ v - (W : ℚ)) := by
      rw [List.dropWhile_cons]
      rw [if_pos]
      simp only [decide_eq_true_eq]
      rw [ha]
      linarith
    have hlenlt : (rest.dropWhile (· ≤ v - (W : ℚ))).length < N := by
      have h1 : (rest.dropWhile (· ≤ v - (W : ℚ))).length ≤ rest.length :=
        (List.dropWhile_sublist _).length_le
      have h2 : rest.length + 1 = N := by simpa using hlen
      omega
    have hcond : ¬ ((removeExpiredTimestamps ⟨N, W, a :: rest⟩ v).timestamps.length ≥ N) := by
      simp only [removeExpiredTimestamps]
      simp only [hdrop]
      omega
    simp only [checkAndRecord, ge_iff_le]
    rw [if_neg (by simpa using hcond)]
    rfl
  · have := runCalls_all_ok 10 60 0 (List.replicate 10 0) []
      (by simp)
      (by intro x hx
          simp only [List.mem_replicate] at hx
          rw [hx.2]
          norm_num)
      (by simp)
    simpa using this
  · have hev : removeExpiredTimestamps ⟨10, 60, List.replicate 10 (0 : ℚ)⟩ 0 =
        ⟨10, 60, List.replicate 10 0⟩ := by
      refine evict_eq_self _ _ ?_
      intro x hx
      simp only [List.mem_replicate] at hx
      rw [hx.2]
      norm_num
    have hh : (List.replicate 10 (0 : ℚ)).headI = 0 := rfl
    have hcheck : checkAndRecord ⟨10, 60, List.replicate 10 (0 : ℚ)⟩ 0 =
        (⟨10, 60, List.replicate 10 0⟩,
          .error ⟨max 0 ((List.replicate 10 (0 : ℚ)).headI + ((60 : ℤ) : ℚ) - 0),
            rateLimitMessage 10 60
              (max 0 ((List.replicate 10 (0 : ℚ)).headI + ((60 : ℤ) : ℚ) - 0))⟩) := by
      simp only [checkAndRecord, hev]
      rw [if_pos (by simp)]
    refine ⟨_, by rw [hcheck], ⟨"Rate limit exceeded. Maximum ",
      " per 60 seconds. Please wait "
        ++ formatOneDecimal (max 0 ((List.replicate 10 (0 : ℚ)).headI + ((60 : ℤ) : ℚ) - 0))
        ++ " seconds before retrying.", ?_⟩, ?_, ?_⟩
    · show rateLimitMessage 10 60 _ = _
      rfl
    · exact le_max_left 0 _
    · show max 0 ((List.replicate 10 (0 : ℚ)).headI + ((60 : ℤ) : ℚ) - 0) ≤ 60
      rw [hh]
      norm_num

/-- Witness for C5 with a concrete `(2, 60)` run and the `(10, 60)`
scenario. -/
theorem claim_C5_witness :
    runCalls ⟨2, 60, []⟩ [0, 1] = (⟨2, 60, [0, 1]⟩, List.replicate 2 true) ∧
    (∃ e, (checkAndRecord ⟨10, 60, List.replicate 10 0⟩ 0).2 = .error e ∧
      (∃ pre post, e.message = pre ++ "10 requests" ++ post) ∧
      0 ≤ e.waitSeconds ∧ e.waitSeconds ≤ 60) := by
  have h := claim_C5 2 60 (by decide) [0, 1] 0 (by decide) rfl rfl
    (by intro x hx
        rcases List.mem_cons.mp hx with rfl | hx2
        · constructor <;> norm_num
        · simp only [List.mem_singleton] at hx2
          rw [hx2]
          constructor <;> norm_num)
  exact ⟨h.1, h.2.2.2.2⟩

/-! ## Claim C10 -/

/-- Claim C10: a `get_stock_price` call whose ticker is not a string, or
is empty or whitespace-only after trimming, or exceeds 10 characters
after trimming and uppercasing, fails with a `ToolExecutionError`
before the rate limiter is consulted: the limiter ledger is returned
unchanged (for every limiter state and every collaborator behaviour),
so the invalid call consumes no quota. -/
theorem claim_C10 (fetch : String → Except String StockData) (L : RateLimiter)
    (now : ℚ) (arg : TickerArg) (h : invalidTickerArg arg) :
    (getStockPrice fetch L now arg).1 = L ∧
    ∃ m, (getStockPrice fetch L now arg).2 = .toolError m := by
  cases arg with
  | nonString t => exact ⟨rfl, _, rfl⟩
  | pyStr s =>
    rcases h with h1 | h2 | h3
    · rw [h1]
      exact ⟨rfl, _, rfl⟩
    · by_cases h0 : s = ""
      · rw [h0]
        exact ⟨rfl, _, rfl⟩
      · simp only [getStockPrice, if_neg h0, h2, if_pos]
        exact ⟨by simp, _, rfl⟩
    · by_cases h0 : s = ""
      · rw [h0]
        exact ⟨rfl, _, rfl⟩
      · by_cases h1 : stripUpper s = ""
        · simp only [getStockPrice, if_neg h0, h1, if_pos]
          exact ⟨by simp, _, rfl⟩
        · simp only [getStockPrice, if_neg h0, if_neg h1, h3, if_pos]
          exact ⟨by simp, _, rfl⟩

/-- Witness for C10 on a whitespace-only ticker against a concrete
limiter state. -/
theorem claim_C10_witness :
    (getStockPrice (fun _ => .error "unused") ⟨10, 60, []⟩ 0 (.pyStr "   ")).1 =
      (⟨10, 60, []⟩ : RateLimiter) ∧
    ∃ m, (getStockPrice (fun _ => .error "unused") ⟨10, 60, []⟩ 0 (.pyStr "   ")).2 =
      .toolError m :=
  claim_C10 (fun _ => .error "unused") ⟨10, 60, []⟩ 0 (.pyStr "   ") (by
    right
    left
    decide)

/-! ## Helper lemmas: literal scanning -/

theorem charEq_refl (ci : Bool) (a : Char) : charEq ci a a = true := by
  cases ci <;> simp [charEq]

theorem matchesAt_append_self (ci : Bool) (p s : Txt) :
    matchesAt ci p (p ++ s) = true := by
  induction p with
  | nil => rfl
  | cons a q ih => simp [matchesAt, charEq_refl, ih]

theorem charEq_false_of_ci (a c : Char) (h : charEq true a c = false) :
    charEq false a c = false := by
  by_contra hc
  rw [Bool.not_eq_false, charEq, if_neg (by simp)] at hc
  have : a = c := by simpa using hc
  rw [this, charEq_refl] at h
  cases h

theorem matchesAt_exists_char (ci : Bool) :
    ∀ p s, matchesAt ci p s = true → ∀ a ∈ p, ∃ c ∈ s, charEq ci a c = true := by
  intro p
  induction p with
  | nil => intro s _ a ha; cases ha
  | cons b q ih =>
    intro s h a ha
    cases s with
    | nil => cases h
    | cons c cs =>
      simp only [matchesAt, Bool.and_eq_true] at h
      rcases List.mem_cons.mp ha with rfl | haq
      · exact ⟨c, by simp, h.1⟩
      · obtain ⟨d, hd, hcd⟩ := ih cs h.2 a haq
        exact ⟨d, by simp [hd], hcd⟩

theorem occursIn_false_of_mem (ci : Bool) (p : Txt) (a : Char) (ha : a ∈ p) :
    ∀ s, (∀ c ∈ s, charEq ci a c = false) → occursIn ci p s = false := by
  intro s
  induction s with
  | nil =>
    intro _
    simp only [occursIn]
    by_contra hb
    rw [Bool.not_eq_false] at hb
    obtain ⟨c, hc, _⟩ := matchesAt_exists_char ci p [] hb a ha
    cases hc
  | cons c cs ih =>
    intro h
    simp only [occursIn, Bool.or_eq_false_iff]
    constructor
    · by_contra hb
      rw [Bool.not_eq_false] at hb
      obtain ⟨d, hd, hcd⟩ := matchesAt_exists_char ci p (c :: cs) hb a ha
      rw [h d hd] at hcd
      cases hcd
    · exact ih (fun d hd => h d (by simp [hd]))

theorem findCloseTail_length (ci : Bool) (closes : List Txt) :
    ∀ s r, findCloseTail ci closes s = some r → r.length ≤ s.length := by
  intro s
  induction s with
  | nil =>
    intro r h
    simp only [findCloseTail] at h
    cases hf : closes.find? (fun p => matchesAt ci p []) with
    | none => rw [hf] at h; cases h
    | some p =>
      rw [hf] at h
      cases h
      simp
  | cons c cs ih =>
    intro r h
    simp only [findCloseTail] at h
    cases hf : closes.find? (fun p => matchesAt ci p (c :: cs)) with
    | none =>
      rw [hf] at h
      have := ih r h
      simp only [List.length_cons]
      omega
    | some p =>
      rw [hf] at h
      cases h
      rw [List.length_drop]
      omega

theorem removeDelimF_congr (ci : Bool) (opn : Txt) (closes : List Txt)
    (hopn : opn ≠ []) :
    ∀ f1 f2 s, s.length ≤ f1 → s.length ≤ f2 →
      removeDelimF ci opn closes f1 s = removeDelimF ci opn closes f2 s := by
  intro f1
  induction f1 with
  | zero =>
    intro f2 s h1 _
    have hs : s = [] := List.length_eq_zero.mp (Nat.le_zero.mp h1)
    rw [hs]
    cases f2 <;> rfl
  | succ f ih =>
    intro f2 s h1 h2
    cases s with
    | nil => cases f2 <;> rfl
    | cons c cs =>
      cases f2 with
      | zero => simp at h2
      | succ f2' =>
        simp only [removeDelimF]
        by_cases hm : matchesAt ci opn (c :: cs) = true
        · rw [hm]
          simp only [if_true]
          cases hfc : findCloseTail ci closes (List.drop opn.length (c :: cs)) with
          | none => rfl
          | some rem =>
            have hr := findCloseTail_length ci closes _ rem hfc
            rw [List.length_drop] at hr
            have hol : 1 ≤ opn.length := by
              cases opn with
              | nil => cases hopn rfl
              | cons _ _ => simp
            simp only [List.length_cons] at h1 h2 hr
            exact ih f2' rem (by omega) (by omega)
        · rw [Bool.not_eq_true] at hm
          rw [hm]
          simp only [Bool.false_eq_true, if_false]
          simp only [List.length_cons] at h1 h2
          rw [ih f2' cs (by omega) (by omega)]

theorem removeDelimF_eq (ci : Bool) (opn : Txt) (closes : List Txt)
    (hopn : opn ≠ []) (f : ℕ) (s : Txt) (hf : s.length ≤ f) :
    removeDelimF ci opn closes f s = removeDelim ci opn closes s :=
  removeDelimF_congr ci opn closes hopn f s.length s hf le_rfl

theorem removeDelimF_id_of_not_occurs (ci : Bool) (opn : Txt) (closes : List Txt) :
    ∀ f s, occursIn ci opn s = false → removeDelimF ci opn closes f s = s := by
  intro f
  induction f with
  | zero => intro s _; rfl
  | succ f ih =>
    intro s h
    cases s with
    | nil => rfl
    | cons c cs =>
      simp only [occursIn, Bool.or_eq_false_iff] at h
      simp only [removeDelimF, h.1, Bool.false_eq_true, if_false]
      rw [ih cs h.2]

theorem removeDelim_id_of_not_occurs (ci : Bool) (opn : Txt) (closes : List Txt)
    (s : Txt) (h : occursIn ci opn s = false) :
    removeDelim ci opn closes s = s :=
  removeDelimF_id_of_not_occurs ci opn closes s.length s h

/-! ## Helper lemmas: strip and the keyword pass -/

theorem dropWhile_head_false (p : Char → Bool) :
    ∀ (l : List Char) (c : Char) (t : List Char),
      l.dropWhile p = c :: t → p c = false := by
  intro l
  induction l with
  | nil => intro c t h; cases h
  | cons a l' ih =>
    intro c t h
    by_cases hp : p a = true
    · rw [List.dropWhile_cons, if_pos hp] at h
      exact ih c t h
    · rw [Bool.not_eq_true] at hp
      rw [List.dropWhile_cons, hp] at h
      simp only [Bool.false_eq_true, if_false] at h
      cases h
      exact hp

theorem dropWhile_idem (p : Char → Bool) (l : List Char) :
    (l.dropWhile p).dropWhile p = l.dropWhile p := by
  cases hc : l.dropWhile p with
  | nil => rfl
  | cons c t =>
    rw [List.dropWhile_cons, dropWhile_head_false p l c t hc]
    simp

theorem pyStrip_idem (s : Txt) : pyStrip (pyStrip s) = pyStrip s := by
  set u := s.dropWhile isPySpace with hu
  set dr := u.reverse.dropWhile isPySpace with hdr
  have h2 : dr.reverse.dropWhile isPySpace = dr.reverse := by
    cases hc : dr.reverse with
    | nil => rfl
    | cons c t =>
      have hsplit : u.reverse.takeWhile isPySpace ++ dr = u.reverse := by
        rw [hdr]
        exact List.takeWhile_append_dropWhile _ _
      have hu2 : u = dr.reverse ++ (u.reverse.takeWhile isPySpace).reverse := by
        calc u = u.reverse.reverse := (List.reverse_reverse u).symm
          _ = (u.reverse.takeWhile isPySpace ++ dr).reverse := by rw [hsplit]
          _ = dr.reverse ++ (u.reverse.takeWhile isPySpace).reverse := by
              rw [List.reverse_append]
      rw [hc] at hu2
      have hcp : isPySpace c = false := by
        refine dropWhile_head_false isPySpace s c
          (t ++ (u.reverse.takeWhile isPySpace).reverse) ?_
        rw [← hu]
        nth_rewrite 1 [hu2]
        rfl
      rw [List.dropWhile_cons, hcp]
      simp
  show ((dr.reverse.dropWhile isPySpace).reverse.dropWhile isPySpace).reverse = dr.reverse
  rw [h2, List.reverse_reverse, hdr, dropWhile_idem]

theorem pyStrip_filter_fix (s : Txt) :
    pyStrip (filterThinkingTokensL s) = filterThinkingTokensL s :=
  pyStrip_idem _

theorem findKeywordTail_none :
    ∀ s, (∀ p ∈ keywordLits, occursIn true p s = false) → findKeywordTail s = none := by
  intro s
  induction s with
  | nil => intro _; rfl
  | cons c cs ih =>
    intro h
    have hf : keywordLits.find? (fun p => matchesAt true p (c :: cs)) = none := by
      rw [List.find?_eq_none]
      intro p hp
      have := h p hp
      simp only [occursIn, Bool.or_eq_false_iff] at this
      simp [this.1]
    simp only [findKeywordTail, hf]
    refine ih ?_
    intro p hp
    have := h p hp
    simp only [occursIn, Bool.or_eq_false_iff] at this
    exact this.2

theorem thinkAnswerSub_id (s : Txt)
    (h : ∀ p ∈ keywordLits, occursIn true p s = false) :
    thinkAnswerSub s = s := by
  unfold thinkAnswerSub
  rw [findKeywordTail_none s h]

/-- No recognized marker occurs in the text: none of the open markers of
the three delimiter vocabularies and none of the `keyword:` triggers of
the `Think:`/`Answer:` pass. -/
def noMarkers (s : Txt) : Prop :=
  occursIn true (txt "<think>") s = false ∧
  occursIn true (txt "<thinking>") s = false ∧
  occursIn false (txt "<|thinking|>") s = false ∧
  occursIn true (txt "think:") s = false ∧
  occursIn true (txt "reasoning:") s = false ∧
  occursIn true (txt "internal thought:") s = false

instance noMarkersDecidable (s : Txt) : Decidable (noMarkers s) := by
  unfold noMarkers
  infer_instance

theorem filterThinkingTokensL_eq_pyStrip (s : Txt) (h : noMarkers s) :
    filterThinkingTokensL s = pyStrip s := by
  obtain ⟨h1, h2, h3, h4, h5, h6⟩ := h
  show pyStrip (thinkAnswerSub (removeDelim false (txt "<|thinking|>")
      [txt "</|end_thinking|>", txt "</end_thinking|>", txt "<|end_thinking|>",
        txt "<end_thinking|>"]
      (removeDelim false (txt "<|thinking|>")
        [txt "</|end_thinking|>", txt "<|end_thinking|>"]
        (removeDelim true (txt "<thinking>") [txt "</thinking>"]
          (removeDelim true (txt "<think>") [txt "</think>"] s))))) = pyStrip s
  rw [removeDelim_id_of_not_occurs _ _ _ _ h1,
      removeDelim_id_of_not_occurs _ _ _ _ h2,
      removeDelim_id_of_not_occurs _ _ _ _ h3,
      removeDelim_id_of_not_occurs _ _ _ _ h3,
      thinkAnswerSub_id s ?_]
  intro p hp
  simp only [keywordLits, List.mem_cons, List.not_mem_nil, or_false] at hp
  rcases hp with rfl | rfl | rfl
  · exact h4
  · exact h5
  · exact h6

/-! ## Claim C8 (corrected) -/

/-- Counterexample to claim C8 as stated.  First conjunct: the marker-free
input " a " is not returned unchanged, because the filter ends with
`strip()`.  Second conjunct: the filter is not idempotent, because
deleting a span can splice together a new marker occurrence:
filtering "<th<think>a</think>ink>b</think>" once yields
"<think>b</think>", and filtering that again yields "". -/
theorem claim_C8_counterexample :
    ¬ (filter_thinking_tokens " a " = " a ") ∧
    ¬ (filter_thinking_tokens (filter_thinking_tokens "<th<think>a</think>ink>b</think>") =
        filter_thinking_tokens "<th<think>a</think>ink>b</think>") := by
  constructor
  · decide
  · decide

/-- Claim C8 as amended: filtering a text in which no recognized marker
occurs returns it unchanged except for stripping leading and trailing
whitespace; and filtering is idempotent on every input whose filtered
output is marker-free (in particular on marker-free inputs), though not
on inputs whose filtering splices together new markers. -/
theorem claim_C8_amended (s : String) :
    (noMarkers s.data → filter_thinking_tokens s = ⟨pyStrip s.data⟩) ∧
    (noMarkers (filter_thinking_tokens s).data →
      filter_thinking_tokens (filter_thinking_tokens s) = filter_thinking_tokens s) := by
  constructor
  · intro h
    show (⟨filterThinkingTokensL s.data⟩ : String) = _
    rw [filterThinkingTokensL_eq_pyStrip _ h]
  · intro h
    show (⟨filterThinkingTokensL (filter_thinking_tokens s).data⟩ : String) = _
    rw [filterThinkingTokensL_eq_pyStrip _ h]
    show (⟨pyStrip (filterThinkingTokensL s.data)⟩ : String) = _
    rw [pyStrip_filter_fix]
    rfl

/-- Witness for the amended C8 on a concrete marker-free input. -/
theorem claim_C8_amended_witness :
    filter_thinking_tokens "hello" = ⟨pyStrip "hello".data⟩ ∧
    filter_thinking_tokens (filter_thinking_tokens "hello") =
      filter_thinking_tokens "hello" :=
  ⟨(claim_C8_amended "hello").1 (by decide), (claim_C8_amended "hello").2 (by decide)⟩

/-! ## Helper lemmas: deleting delimited blocks -/

theorem removeDelim_append_plain (ci : Bool) (a : Char) (oq : Txt)
    (closes : List Txt) :
    ∀ (plain s : Txt), (∀ c ∈ plain, charEq ci a c = false) →
      removeDelim ci (a :: oq) closes (plain ++ s) =
        plain ++ removeDelim ci (a :: oq) closes s := by
  intro plain
  induction plain with
  | nil => intro s _; rfl
  | cons c p' ih =>
    intro s hp
    have hca : charEq ci a c = false := hp c (by simp)
    have hm : matchesAt ci (a :: oq) (c :: (p' ++ s)) = false := by
      simp [matchesAt, hca]
    show removeDelimF ci (a :: oq) closes ((c :: (p' ++ s)).length) (c :: (p' ++ s)) =
      c :: (p' ++ removeDelim ci (a :: oq) closes s)
    rw [show (c :: (p' ++ s)).length = (p' ++ s).length + 1 from by simp]
    simp only [removeDelimF, hm, Bool.false_eq_true, if_false]
    rw [show removeDelimF ci (a :: oq) closes ((p' ++ s).length) (p' ++ s) =
      removeDelim ci (a :: oq) closes (p' ++ s) from rfl]
    rw [ih s (fun d hd => hp d (by simp [hd]))]

theorem findCloseTail_through (ci : Bool) (a : Char) (cq : Txt) :
    ∀ (body s : Txt), (∀ c ∈ body, charEq ci a c = false) →
      findCloseTail ci [a :: cq] (body ++ ((a :: cq) ++ s)) = some s := by
  intro body
  induction body with
  | nil =>
    intro s _
    show findCloseTail ci [a :: cq] (a :: (cq ++ s)) = some s
    have hm : matchesAt ci (a :: cq) (a :: (cq ++ s)) = true :=
      matchesAt_append_self ci (a :: cq) s
    simp only [findCloseTail, List.find?_cons, hm]
    rw [show List.drop (a :: cq).length (a :: (cq ++ s)) = s from by simp]
  | cons c b' ih =>
    intro s hb
    have hca : charEq ci a c = false := hb c (by simp)
    have hm : matchesAt ci (a :: cq) (c :: (b' ++ ((a :: cq) ++ s))) = false := by
      simp [matchesAt, hca]
    show findCloseTail ci [a :: cq] (c :: (b' ++ ((a :: cq) ++ s))) = some s
    simp only [findCloseTail, List.find?_cons, hm]
    exact ih s (fun d hd => hb d (by simp [hd]))

theorem removeDelim_block (ci : Bool) (a : Char) (oq cq body s : Txt)
    (hb : ∀ c ∈ body, charEq ci a c = false) :
    removeDelim ci (a :: oq) [a :: cq] ((a :: oq) ++ (body ++ ((a :: cq) ++ s))) =
      removeDelim ci (a :: oq) [a :: cq] s := by
  show removeDelimF ci (a :: oq) [a :: cq]
      (((a :: oq) ++ (body ++ ((a :: cq) ++ s))).length)
      (a :: (oq ++ (body ++ ((a :: cq) ++ s)))) = _
  rw [show ((a :: oq) ++ (body ++ ((a :: cq) ++ s))).length =
      (oq ++ (body ++ ((a :: cq) ++ s))).length + 1 from by simp]
  have hm : matchesAt ci (a :: oq) (a :: (oq ++ (body ++ ((a :: cq) ++ s)))) = true :=
    matchesAt_append_self ci (a :: oq) _
  simp only [removeDelimF, hm, if_true]
  have hdrop : List.drop (a :: oq).length (a :: (oq ++ (body ++ ((a :: cq) ++ s)))) =
      body ++ ((a :: cq) ++ s) := by
    simp
  rw [hdrop, findCloseTail_through ci a cq body s hb]
  refine removeDelimF_eq ci (a :: oq) [a :: cq] (by simp) _ s ?_
  simp only [List.length_append, List.length_cons]
  omega

/-! ## Claim C9 -/

/-- A text made of alternating plain segments and `<think>`-delimited
regions: each pair contributes its plain part, then one complete marked
region, and a final plain tail follows. -/
def thinkBlocks : List (Txt × Txt) → Txt → Txt
  | [], tl => tl
  | (p, b) :: rest, tl =>
    p ++ (txt "<think>" ++ (b ++ (txt "</think>" ++ thinkBlocks rest tl)))

/-- The concatenation, in order, of the plain (non-marked) segments. -/
def plainsOf (segs : List (Txt × Txt)) : Txt :=
  (segs.map Prod.fst).flatten

theorem removeDelim_thinkBlocks :
    ∀ (segs : List (Txt × Txt)) (tl : Txt),
      (∀ pb ∈ segs, (∀ c ∈ pb.1, charEq true '<' c = false) ∧
        (∀ c ∈ pb.2, charEq true '<' c = false)) →
      (∀ c ∈ tl, charEq true '<' c = false) →
      removeDelim true (txt "<think>") [txt "</think>"] (thinkBlocks segs tl) =
        plainsOf segs ++ tl := by
  intro segs
  induction segs with
  | nil =>
    intro tl _ htl
    show removeDelim true (txt "<think>") [txt "</think>"] tl = plainsOf [] ++ tl
    rw [removeDelim_id_of_not_occurs _ _ _ _
      (occursIn_false_of_mem true (txt "<think>") '<' (by decide) tl htl)]
    rfl
  | cons pb rest ih =>
    intro tl hseg htl
    obtain ⟨p, b⟩ := pb
    have hp := (hseg (p, b) (by simp)).1
    have hb := (hseg (p, b) (by simp)).2
    have hopen : txt "<think>" = '<' :: txt "think>" := rfl
    have hclose : txt "</think>" = '<' :: txt "/think>" := rfl
    show removeDelim true (txt "<think>") [txt "</think>"]
      (p ++ (txt "<think>" ++ (b ++ (txt "</think>" ++ thinkBlocks rest tl)))) = _
    rw [hopen, hclose]
    rw [removeDelim_append_plain true '<' (txt "think>") ['<' :: txt "/think>"] p _ hp]
    rw [removeDelim_block true '<' (txt "think>") (txt "/think>") b _ hb]
    rw [← hopen, ← hclose]
    rw [ih tl (fun q hq => hseg q (by simp [hq])) htl]
    show p ++ (plainsOf rest ++ tl) = plainsOf ((p, b) :: rest) ++ tl
    simp [plainsOf, List.append_assoc]

/-- Claim C9: `filter_thinking_tokens` removes every recognized
marker-delimited thinking region.  Concretely, `"<think>X</think>Y"`
yields `"Y"` and an input that is one single marked region yields `""`;
and in general, for a text with any number of disjoint `<think>` regions
whose plain segments carry no marker characters (no `<`, no `:`) and no
surrounding whitespace, the output is exactly the plain segments
concatenated in their original order. -/
theorem claim_C9 :
    filter_thinking_tokens "<think>X</think>Y" = "Y" ∧
    filter_thinking_tokens "<think>only thinking</think>" = "" ∧
    (∀ (segs : List (Txt × Txt)) (tl : Txt),
      (∀ pb ∈ segs,
        (∀ c ∈ pb.1, charEq true '<' c = false ∧ charEq true ':' c = false) ∧
        (∀ c ∈ pb.2, charEq true '<' c = false)) →
      (∀ c ∈ tl, charEq true '<' c = false ∧ charEq true ':' c = false) →
      pyStrip (plainsOf segs ++ tl) = plainsOf segs ++ tl →
      filterThinkingTokensL (thinkBlocks segs tl) = plainsOf segs ++ tl) := by
  refine ⟨by decide, by decide, ?_⟩
  intro segs tl hseg htl hstrip
  have hP : ∀ c ∈ plainsOf segs ++ tl,
      charEq true '<' c = false ∧ charEq true ':' c = false := by
    intro c hc
    rcases List.mem_append.mp hc with hcp | hct
    · obtain ⟨l, hl, hcl⟩ := List.mem_flatten.mp hcp
      obtain ⟨pb, hpb, rfl⟩ := List.mem_map.mp hl
      exact (hseg pb hpb).1 c hcl
    · exact htl c hct
  have hrd1 := removeDelim_thinkBlocks segs tl
    (fun pb hpb => ⟨fun c hc => ((hseg pb hpb).1 c hc).1, (hseg pb hpb).2⟩)
    (fun c hc => (htl c hc).1)
  have hlt : ∀ c ∈ plainsOf segs ++ tl, charEq true '<' c = false :=
    fun c hc => (hP c hc).1
  have hcolon : ∀ c ∈ plainsOf segs ++ tl, charEq true ':' c = false :=
    fun c hc => (hP c hc).2
  have hltf : ∀ c ∈ plainsOf segs ++ tl, charEq false '<' c = false :=
    fun c hc => charEq_false_of_ci '<' c (hlt c hc)
  have h3 : occursIn false (txt "<|thinking|>") (plainsOf segs ++ tl) = false :=
    occursIn_false_of_mem false (txt "<|thinking|>") '<' (by decide) _ hltf
  show pyStrip (thinkAnswerSub (removeDelim false (txt "<|thinking|>")
      [txt "</|end_thinking|>", txt "</end_thinking|>", txt "<|end_thinking|>",
        txt "<end_thinking|>"]
      (removeDelim false (txt "<|thinking|>")
        [txt "</|end_thinking|>", txt "<|end_thinking|>"]
        (removeDelim true (txt "<thinking>") [txt "</thinking>"]
          (removeDelim true (txt "<think>") [txt "</think>"]
            (thinkBlocks segs tl)))))) = plainsOf segs ++ tl
  rw [hrd1]
  rw [removeDelim_id_of_not_occurs _ _ _ _
    (occursIn_false_of_mem true (txt "<thinking>") '<' (by decide) _ hlt)]
  rw [removeDelim_id_of_not_occurs _ _ _ _ h3]
  rw [removeDelim_id_of_not_occurs _ _ _ _ h3]
  rw [thinkAnswerSub_id _ ?_]
  · exact hstrip
  · intro p hp
    simp only [keywordLits, List.mem_cons, List.not_mem_nil, or_false] at hp
    rcases hp with rfl | rfl | rfl
    · exact occursIn_false_of_mem true (txt "think:") ':' (by decide) _ hcolon
    · exact occursIn_false_of_mem true (txt "reasoning:") ':' (by decide) _ hcolon
    · exact occursIn_false_of_mem true (txt "internal thought:") ':' (by decide) _ hcolon

/-- Witness for C9 on a concrete two-region input. -/
theorem claim_C9_witness :
    filterThinkingTokensL
      (thinkBlocks [(txt "A", txt "x"), (txt "B", txt "y")] (txt "C")) =
      plainsOf [(txt "A", txt "x"), (txt "B", txt "y")] ++ txt "C" :=
  claim_C9.2.2 [(txt "A", txt "x"), (txt "B", txt "y")] (txt "C")
    (by decide) (by decide) (by decide)

/-! ## Helper lemmas: the online streaming loop -/

theorem openMarkerFound_false (s : Txt)
    (h : ∀ c ∈ s, charEq true '<' c = false) : openMarkerFound s = false := by
  unfold openMarkerFound
  rw [occursIn_false_of_mem true (txt "<think>") '<' (by decide) s h,
      occursIn_false_of_mem true (txt "<thinking>") '<' (by decide) s h,
      occursIn_false_of_mem true (txt "<|thinking|>") '<' (by decide) s h]
  rfl

theorem streamStep_plain (full0 buf0 ys0 : List Txt) (ch : Txt)
    (h : ∀ c ∈ (lastTen (full0 ++ [ch])).flatten, charEq true '<' c = false) :
    streamStep ⟨full0, false, buf0, ys0⟩ ch =
      ⟨full0 ++ [ch], false, buf0, ys0 ++ [ch]⟩ := by
  have hopen := openMarkerFound_false _ h
  simp [streamStep, hopen]

theorem streamLoop_passthrough :
    ∀ (chunks full0 buf0 ys0 : List Txt),
      (∀ ch ∈ full0, ∀ c ∈ ch, charEq true '<' c = false) →
      (∀ ch ∈ chunks, ∀ c ∈ ch, charEq true '<' c = false) →
      List.foldl streamStep ⟨full0, false, buf0, ys0⟩ chunks =
        ⟨full0 ++ chunks, false, buf0, ys0 ++ chunks⟩ := by
  intro chunks
  induction chunks with
  | nil =>
    intro full0 buf0 ys0 _ _
    simp
  | cons ch rest ih =>
    intro full0 buf0 ys0 hfull hchunks
    have hch : ∀ c ∈ ch, charEq true '<' c = false := hchunks ch (by simp)
    have hfull1 : ∀ l ∈ full0 ++ [ch], ∀ c ∈ l, charEq true '<' c = false := by
      intro l hl c hcl
      rcases List.mem_append.mp hl with h1 | h2
      · exact hfull l h1 c hcl
      · simp only [List.mem_singleton] at h2
        rw [h2] at hcl
        exact hch c hcl
    have hrecent : ∀ c ∈ (lastTen (full0 ++ [ch])).flatten, charEq true '<' c = false := by
      intro c hc
      obtain ⟨l, hl, hcl⟩ := List.mem_flatten.mp hc
      have hl2 : l ∈ full0 ++ [ch] := List.mem_of_mem_drop hl
      exact hfull1 l hl2 c hcl
    show List.foldl streamStep (streamStep ⟨full0, false, buf0, ys0⟩ ch) rest = _
    rw [streamStep_plain full0 buf0 ys0 ch hrecent]
    rw [ih (full0 ++ [ch]) buf0 (ys0 ++ [ch]) hfull1
      (fun l hl => hchunks l (by simp [hl]))]
    simp [List.append_assoc]

theorem streamLoop_eq (chunks : List Txt)
    (h : ∀ ch ∈ chunks, ∀ c ∈ ch, charEq true '<' c = false) :
    streamLoop chunks = ⟨chunks, false, [], chunks⟩ := by
  have := streamLoop_passthrough chunks [] [] [] (by intro l hl; cases hl) h
  simpa [streamLoop] using this

theorem streamSuccessYields_plain (chunks : List Txt)
    (hlt : ∀ ch ∈ chunks, ∀ c ∈ ch, charEq true '<' c = false)
    (hcolon : ∀ ch ∈ chunks, ∀ c ∈ ch, charEq true ':' c = false)
    (hstrip : pyStrip chunks.flatten = chunks.flatten) :
    streamSuccessYields chunks = chunks ∧
    (streamSuccessYields chunks).flatten = filterThinkingTokensL chunks.flatten := by
  have hloop := streamLoop_eq chunks hlt
  have hfl : ∀ c ∈ chunks.flatten, charEq true '<' c = false := by
    intro c hc
    obtain ⟨l, hl, hcl⟩ := List.mem_flatten.mp hc
    exact hlt l hl c hcl
  have hflc : ∀ c ∈ chunks.flatten, charEq true ':' c = false := by
    intro c hc
    obtain ⟨l, hl, hcl⟩ := List.mem_flatten.mp hc
    exact hcolon l hl c hcl
  have hmarkers : noMarkers chunks.flatten := by
    refine ⟨?_, ?_, ?_, ?_, ?_, ?_⟩
    · exact occursIn_false_of_mem true (txt "<think>") '<' (by decide) _ hfl
    · exact occursIn_false_of_mem true (txt "<thinking>") '<' (by decide) _ hfl
    · exact occursIn_false_of_mem false (txt "<|thinking|>") '<' (by decide) _
        (fun c hc => charEq_false_of_ci '<' c (hfl c hc))
    · exact occursIn_false_of_mem true (txt "think:") ':' (by decide) _ hflc
    · exact occursIn_false_of_mem true (txt "reasoning:") ':' (by decide) _ hflc
    · exact occursIn_false_of_mem true (txt "internal thought:") ':' (by decide) _ hflc
  have hfilter : filterThinkingTokensL chunks.flatten = chunks.flatten := by
    rw [filterThinkingTokensL_eq_pyStrip _ hmarkers, hstrip]
  have hnotgt : ¬ (((filterThinkingTokensL chunks.flatten).length : ℤ) >
      totalLen chunks - totalLen ([] : List Txt)) := by
    rw [hfilter]
    simp [totalLen, List.length_flatten]
  have hyields : streamSuccessYields chunks = chunks := by
    simp only [streamSuccessYields, hloop]
    rw [if_neg hnotgt]
  exact ⟨hyields, by rw [hyields, hfilter]⟩

/-! ## Claim C1 (corrected) -/

/-- Counterexample to claim C1 as stated: a producer that yields one
plain chunk and then raises a classified `ToolExecutionError` produces
the chunk, then exactly one error chunk, then the sentinel, but
`exception_holder` stays empty and nothing is re-raised after the queue
drains, so the programmatic caller observes no classified error. -/
theorem claim_C1_counterexample :
    (streamAgentResponse [txt "a"] (some (.toolExecution "boom"))).received =
      [txt "a", txt "\n\nError: boom"] ∧
    (streamAgentResponse [txt "a"] (some (.toolExecution "boom"))).raised = none ∧
    ¬ ((streamAgentResponse [txt "a"] (some (.toolExecution "boom"))).raised =
      some (.toolExecution "boom")) := by
  refine ⟨by decide, rfl, by decide⟩

/-- Claim C1 as amended: for a producer that yields `m` marker-free
chunks and then raises, the blocking caller receives exactly those `m`
chunks in order, then exactly one error-message chunk, then the terminal
sentinel; but the underlying error is never re-raised to the
programmatic caller — both `except` arms live inside `_async_stream`,
so the worker completes normally and the caller can distinguish an
errored turn only by the text of the final chunk. -/
theorem claim_C1_amended (chunks : List Txt) (e : ProducerError)
    (h : ∀ ch ∈ chunks, ∀ c ∈ ch, charEq true '<' c = false) :
    (streamAgentResponse chunks (some e)).received = chunks ++ [errorChunk e] ∧
    (streamAgentResponse chunks (some e)).sentinelSeen = true ∧
    (streamAgentResponse chunks (some e)).raised = none := by
  refine ⟨?_, rfl, rfl⟩
  show asyncStreamYields chunks (some e) = chunks ++ [errorChunk e]
  unfold asyncStreamYields
  rw [streamLoop_eq chunks h]

/-- Witness for the amended C1 on a concrete two-chunk producer run. -/
theorem claim_C1_amended_witness :
    (streamAgentResponse [txt "Hello ", txt "world"]
      (some (.toolExecution "tool failed"))).received =
      [txt "Hello ", txt "world"] ++ [errorChunk (.toolExecution "tool failed")] ∧
    (streamAgentResponse [txt "Hello ", txt "world"]
      (some (.toolExecution "tool failed"))).sentinelSeen = true ∧
    (streamAgentResponse [txt "Hello ", txt "world"]
      (some (.toolExecution "tool failed"))).raised = none :=
  claim_C1_amended [txt "Hello ", txt "world"] (.toolExecution "tool failed")
    (by decide)

/-! ## Claim C3 (corrected) -/

/-- Counterexample to claim C3 as stated: an unclassified producer error
is not hidden from the end user — the catch-all arm yields
`"\n\nStreaming error: " + str(e)`, embedding the raw message verbatim
in the visible chunk; and a rate-limit error takes the same catch-all
branch (its class is not a `ToolExecutionError` subclass), not the
classified one. -/
theorem claim_C3_counterexample :
    (streamAgentResponse [] (some (.unclassified "ValueError: secret internal detail"))).received =
      [txt ("\n\nStreaming error: " ++ "ValueError: secret internal detail")] ∧
    (streamAgentResponse [] (some (.rateLimit "Rate limit exceeded. Please wait 45.2 seconds before retrying."))).received =
      [txt ("\n\nStreaming error: "
        ++ "Rate limit exceeded. Please wait 45.2 seconds before retrying.")] := by
  constructor
  · rfl
  · rfl

/-- Claim C3 as amended: the producer error becomes exactly one error
chunk; a `ToolExecutionError` is formatted through the classified arm as
`"\n\nError: " + msg`, while rate-limit errors and every other error
take the catch-all arm and are formatted as
`"\n\nStreaming error: " + msg` — in every case the error's message is
embedded verbatim in the chunk shown to the user. -/
theorem claim_C3_amended (chunks : List Txt) (e : ProducerError) (m : String)
    (h : ∀ ch ∈ chunks, ∀ c ∈ ch, charEq true '<' c = false) :
    (streamAgentResponse chunks (some e)).received = chunks ++ [errorChunk e] ∧
    errorChunk (.toolExecution m) = txt ("\n\nError: " ++ m) ∧
    errorChunk (.rateLimit m) = txt ("\n\nStreaming error: " ++ m) ∧
    errorChunk (.unclassified m) = txt ("\n\nStreaming error: " ++ m) := by
  refine ⟨?_, rfl, rfl, rfl⟩
  show asyncStreamYields chunks (some e) = chunks ++ [errorChunk e]
  unfold asyncStreamYields
  rw [streamLoop_eq chunks h]

/-- Witness for the amended C3 on a concrete rate-limited run. -/
theorem claim_C3_amended_witness :
    (streamAgentResponse [txt "Fetching..."]
      (some (.rateLimit "Rate limit exceeded. Maximum 10 requests per 60 seconds."))).received =
      [txt "Fetching..."] ++
        [errorChunk (.rateLimit "Rate limit exceeded. Maximum 10 requests per 60 seconds.")] ∧
    errorChunk (.toolExecution "msg") = txt ("\n\nError: " ++ "msg") ∧
    errorChunk (.rateLimit "msg") = txt ("\n\nStreaming error: " ++ "msg") ∧
    errorChunk (.unclassified "msg") = txt ("\n\nStreaming error: " ++ "msg") :=
  claim_C3_amended [txt "Fetching..."]
    (.rateLimit "Rate limit exceeded. Maximum 10 requests per 60 seconds.") "msg"
    (by decide)

/-! ## Claim C2 (code bug) -/

/-- Evaluation of the streaming code at the failing input of claim C2.
The producer emits `"ab<thi"` then `"nk>secret</think>cd"`: the split
opening marker is missed online, so `"ab<thi"` is streamed raw; at
end of stream the authoritative filter result `"abcd"` (4 chars) is
shorter than the streamed length (6 chars), so the reconciliation
branch `len(filtered_text) > streamed_length` does not fire, no
corrective chunk is emitted, and the concatenation of the yielded
chunks differs from the authoritative filter of the full text. -/
theorem claim_C2_eval :
    streamSuccessYields [txt "ab<thi", txt "nk>secret</think>cd"] = [txt "ab<thi"] ∧
    filterThinkingTokensL (txt "ab<think>secret</think>cd") = txt "abcd" ∧
    (streamSuccessYields [txt "ab<thi", txt "nk>secret</think>cd"]).flatten ≠
      filterThinkingTokensL ([txt "ab<thi", txt "nk>secret</think>cd"].flatten) := by
  refine ⟨by decide, by decide, by decide⟩
